import Mathlib

/-!
Verification of the interval algebra and of the CIRE (cross-iteration
redundancy elimination) pass of the Devito compiler middle-end.

The development shallowly embeds:

* `devito/ir/support/space.py` — the `NullInterval`/`Interval` variants and
  `IntervalGroup`;
* `devito/passes/clusters/aliases.py` — `analyze`, `collect`, `choose`,
  `cire`, `Candidate`, `Group` and `Aliases`.

External collaborators of the core (sympy expression manipulation,
`LabeledVector`, `devito.tools.filter_ordered`, `estimate_cost`,
`compare_ops`, time-invariance) are opaque capabilities per spec §1/§6; where
a definition stands in for one of them it is marked `Modelled from the spec`.
The interactive-debugger drops (`IPython.embed`) present in `collect` are
development artifacts per spec §9 and are treated as no-ops; they do not touch
the data flow.
-/

namespace Devito

/-- A Dimension: an opaque, hashable key for one axis of the iteration domain
(spec §3).  The claims under verification only involve plain (non-derived,
non-incrementing) dimensions, which we represent by naturals. -/
abbrev Dim := Nat

/-- The `AbstractInterval` hierarchy of `space.py` as a tagged variant
(as suggested by spec §9): `NullInterval(dim)` and
`Interval(dim, lower, upper)` with exact integer bounds. -/
inductive AbsInterval where
  | null (dim : Dim)
  | defined (dim : Dim) (lower upper : Int)
deriving DecidableEq, Repr

namespace AbsInterval

/-- Python `self.dim`. -/
def dim : AbsInterval → Dim
  | null d => d
  | defined d _ _ => d

/-- Python `Interval.min_extent = abs(upper - lower)` (`space.py` line 103).
A `NullInterval` has no `min_extent` attribute in the source; the value here
is never consulted for the null variant (the source's `AttributeError` branch
is modelled by pattern matching in `overlap`). -/
def minExtent : AbsInterval → Int
  | null _ => 0
  | defined _ l u => |u - l|

/-- Python `lower` of a defined interval (0 for null, never consulted there). -/
def lowerD : AbsInterval → Int
  | null _ => 0
  | defined _ l _ => l

/-- Python `upper` of a defined interval (0 for null, never consulted there). -/
def upperD : AbsInterval → Int
  | null _ => 0
  | defined _ _ u => u

/-- Python `is_Null` flag. -/
def isNull : AbsInterval → Bool
  | null _ => true
  | defined _ _ _ => false

/-- Python `overlap` (`space.py` lines 81-82 and 139-149).  `NullInterval.overlap`
always returns `False`.  `Interval.overlap` returns `False` when the
dimensions differ; when the operand is a `NullInterval` the attempt to read
`o.min_extent` raises `AttributeError`, which the source catches and turns
into `False`.  Otherwise the lower bounds must be within
`max(self.min_extent, o.min_extent)` of each other in either direction. -/
def overlap : AbsInterval → AbsInterval → Bool
  | null _, _ => false
  | defined _ _ _, null _ => false
  | defined d l u, defined d' l' u' =>
      if d ≠ d' then false
      else
        let me := max |u - l| |u' - l'|
        decide ((l ≤ l' ∧ l' ≤ l + me) ∨ (l ≥ l' ∧ l ≤ l' + me))

/-- Python `intersection` (`space.py` lines 41-42 and 116-120).  A `NullInterval`
intersecting anything yields a rebuilt `NullInterval`; a defined `Interval`
yields the bound-wise max/min when overlapping, else `NullInterval(self.dim)`. -/
def intersection : AbsInterval → AbsInterval → AbsInterval
  | null d, _ => null d
  | defined d _ _, null _ => null d
  | defined d l u, defined d' l' u' =>
      if overlap (defined d l u) (defined d' l' u') then
        defined d (max l l') (min u u')
      else null d

/-- The result of `union`, which in the source is either a single interval or
a two-element `IntervalGroup`. -/
inductive UnionResult where
  | single (i : AbsInterval)
  | group (g : List AbsInterval)
deriving DecidableEq, Repr

/-- Python `union` (`space.py` lines 75-79 and 122-128). -/
def union : AbsInterval → AbsInterval → UnionResult
  | null d, o =>
      if d = o.dim then UnionResult.single o
      else UnionResult.group [null d, o]
  | defined d l u, o =>
      if overlap (defined d l u) o then
        UnionResult.single (defined d (min l o.lowerD) (max u o.upperD))
      else if o.isNull && decide (d = o.dim) then
        UnionResult.single (defined d l u)
      else UnionResult.group [defined d l u, o]

/-- Python `subtract` (`space.py` lines 48-49 and 130-134): offset subtraction. -/
def subtract : AbsInterval → AbsInterval → AbsInterval
  | null d, _ => null d
  | defined d l u, o =>
      if decide (d ≠ o.dim) || o.isNull then defined d l u
      else defined d (l - o.lowerD) (u - o.upperD)

/-- Python `negate` (`space.py` lines 51-52 and 136-137). -/
def negate : AbsInterval → AbsInterval
  | null d => null d
  | defined d l u => defined d (-l) (-u)

end AbsInterval

/-- An `IntervalGroup` is a sequence of intervals (`space.py` line 159). -/
abbrev IG := List AbsInterval

/-- Helper for `filterOrdered`, carrying the set of elements already seen. -/
def filterOrderedGo [DecidableEq α] (seen : List α) : List α → List α
  | [] => []
  | x :: xs =>
      if x ∈ seen then filterOrderedGo seen xs
      else x :: filterOrderedGo (x :: seen) xs

/-- Modelled from the spec: `devito.tools.filter_ordered` (external to the
core, spec §1) is order-preserving de-duplication — spec §4.3 describes its
result as "order-preserving, de-duplicated". -/
def filterOrdered [DecidableEq α] (l : List α) : List α := filterOrderedGo [] l

/-- The number of distinct elements of a list (Python `len(set(l))`). -/
def distinctCount [DecidableEq α] (l : List α) : Nat := (filterOrdered l).length

/-- Python `IntervalGroup.dimensions` (`space.py` lines 171-173). -/
def igDimensions (g : IG) : List Dim := filterOrdered (g.map AbsInterval.dim)

/-- Python `IntervalGroup.is_well_defined` (`space.py` lines 175-181):
`len(self.dimensions) == len(set(self.dimensions))`. -/
def igIsWellDefined (g : IG) : Bool :=
  decide ((igDimensions g).length = distinctCount (igDimensions g))

/-- The error raised by `IntervalGroup.__getitem__` on an ill-defined group
("MalformedSpaceError" in the spec's taxonomy, a `ValueError` in the code). -/
inductive SpaceErr where
  | malformed
deriving DecidableEq, Repr

/-- Decidable equality of `Except` values, used to evaluate concrete runs. -/
instance exceptDecEq {ε α : Type} [DecidableEq ε] [DecidableEq α] :
    DecidableEq (Except ε α)
  | .error e, .error e' =>
      if h : e = e' then .isTrue (by rw [h])
      else .isFalse (by intro hc; cases hc; exact h rfl)
  | .error _, .ok _ => .isFalse (by intro hc; cases hc)
  | .ok _, .error _ => .isFalse (by intro hc; cases hc)
  | .ok a, .ok a' =>
      if h : a = a' then .isTrue (by rw [h])
      else .isFalse (by intro hc; cases hc; exact h rfl)

/-- Python `IntervalGroup.__getitem__` with a `Dimension` key (`space.py` lines
226-233): raise on an ill-defined group, otherwise return the first interval
over the requested dimension, falling through to `None` when there is none. -/
def igGetDim (g : IG) (key : Dim) : Except SpaceErr (Option AbsInterval) :=
  if igIsWellDefined g then
    Except.ok (g.find? (fun i => decide (i.dim = key)))
  else Except.error SpaceErr.malformed

/-- Python `IntervalGroup.__getitem__` with an integer key (`space.py` lines
227-228): ordinary sequence indexing, performed before any well-definedness
check. -/
def igGetIdx (g : IG) (n : Nat) : Option AbsInterval := g.get? n

/-- Claim C6: for every defined Interval `a`, `a.intersection(a) == a` and
`a.union(NullInterval(a.dim)) == a`; and for two defined Intervals over the
same dimension, `intersection` returns `Interval(dim, max(lowers),
min(uppers))` when they overlap and `NullInterval(dim)` otherwise. -/
theorem claim_C6_interval_algebra :
    (∀ (d : Dim) (l u : Int),
        AbsInterval.intersection (.defined d l u) (.defined d l u) =
          .defined d l u) ∧
    (∀ (d : Dim) (l u : Int),
        AbsInterval.union (.defined d l u) (.null d) =
          .single (.defined d l u)) ∧
    (∀ (d : Dim) (l u l' u' : Int),
        AbsInterval.intersection (.defined d l u) (.defined d l' u') =
          if AbsInterval.overlap (.defined d l u) (.defined d l' u') then
            .defined d (max l l') (min u u')
          else .null d) := by
  refine ⟨?_, ?_, ?_⟩
  · intro d l u
    have hov : AbsInterval.overlap (.defined d l u) (.defined d l u) = true := by
      simp only [AbsInterval.overlap]
      have h0 : (0 : Int) ≤ |u - l| := abs_nonneg _
      simp only [ne_eq, not_true_eq_false, if_false, ite_false]
      refine decide_eq_true ?_
      left
      rw [max_self]
      exact ⟨le_refl l, by linarith⟩
    simp [AbsInterval.intersection, hov]
  · intro d l u
    simp [AbsInterval.union, AbsInterval.overlap, AbsInterval.isNull,
      AbsInterval.dim]
  · intro d l u l' u'
    rfl

/-- Claim C7: `overlap` is symmetric for every pair of Intervals over the same
dimension; for two defined Intervals over the same dimension it holds iff
their lower bounds are within `max(a.min_extent, b.min_extent)` of each other
in either direction; and it is false whenever the dimensions differ or either
operand is a `NullInterval`. -/
theorem claim_C7_overlap_symmetric :
    (∀ a b : AbsInterval, a.dim = b.dim → a.overlap b = b.overlap a) ∧
    (∀ (d : Dim) (l u l' u' : Int),
        AbsInterval.overlap (.defined d l u) (.defined d l' u') = true ↔
          (l' - l ≤ max |u - l| |u' - l'| ∧ l - l' ≤ max |u - l| |u' - l'|)) ∧
    (∀ a b : AbsInterval, a.dim ≠ b.dim → a.overlap b = false) ∧
    (∀ (d : Dim) (b : AbsInterval),
        AbsInterval.overlap (.null d) b = false ∧
        b.overlap (.null d) = false) := by
  refine ⟨?_, ?_, ?_, ?_⟩
  · intro a b hdim
    cases a with
    | null d => cases b <;> simp [AbsInterval.overlap]
    | defined d l u =>
      cases b with
      | null d' => simp [AbsInterval.overlap]
      | defined d' l' u' =>
        simp only [AbsInterval.dim] at hdim
        subst hdim
        simp only [AbsInterval.overlap, ne_eq, not_true_eq_false, if_false,
          ite_false]
        rw [max_comm |u - l| |u' - l'|]
        refine decide_eq_decide.mpr ?_
        generalize max |u' - l'| |u - l| = m
        omega
  · intro d l u l' u'
    simp only [AbsInterval.overlap, ne_eq, not_true_eq_false, if_false,
      ite_false, decide_eq_true_eq]
    generalize max |u - l| |u' - l'| = m
    omega
  · intro a b hdim
    cases a with
    | null _ => simp [AbsInterval.overlap]
    | defined d l u =>
      cases b with
      | null _ => simp [AbsInterval.overlap]
      | defined d' l' u' =>
        simp only [AbsInterval.dim] at hdim
        simp [AbsInterval.overlap, hdim]
  · intro d b
    constructor
    · simp [AbsInterval.overlap]
    · cases b <;> simp [AbsInterval.overlap]

/-- Claim C7 witness: symmetry applied at a concrete same-dimension pair. -/
theorem claim_C7_witness :
    AbsInterval.overlap (.defined 0 1 3) (.defined 0 2 2) =
      AbsInterval.overlap (.defined 0 2 2) (.defined 0 1 3) :=
  claim_C7_overlap_symmetric.1 (.defined 0 1 3) (.defined 0 2 2) rfl

/-- Claim C8 — evaluation of the code at the failing input: because
`filter_ordered` de-duplicates, `is_well_defined` evaluates to `True` even for
a group holding two Intervals over the same Dimension, so indexing by that
Dimension silently returns the first matching Interval instead of raising the
MalformedSpaceError the claim requires.  Integer indexing behaves as ordinary
sequence indexing. -/
theorem claim_C8_getitem_no_error :
    igIsWellDefined [.defined 0 0 0, .defined 0 1 1] = true ∧
    igGetDim [.defined 0 0 0, .defined 0 1 1] 0 =
      .ok (some (.defined 0 0 0)) ∧
    igGetIdx [.defined 0 0 0, .defined 0 1 1] 1 = some (.defined 0 1 1) := by
  decide

/-- Claim C9: indexing a well-defined `IntervalGroup` by a Dimension key for
which the group contains no Interval returns no value (`None`) rather than
raising an error. -/
theorem claim_C9_absent_dim_returns_none :
    ∀ (g : IG) (d : Dim), igIsWellDefined g = true →
      (∀ i ∈ g, i.dim ≠ d) → igGetDim g d = .ok none := by
  intro g d hwd habs
  simp only [igGetDim, hwd, if_true]
  congr 1
  rw [List.find?_eq_none]
  intro i hi
  simp [habs i hi]

/-- Claim C9 witness. -/
theorem claim_C9_witness :
    igGetDim [AbsInterval.defined 0 0 0] 1 = .ok none :=
  claim_C9_absent_dim_returns_none [AbsInterval.defined 0 0 0] 1
    (by decide) (by decide)

/-! ## Expressions and affine offsets (`aliases.py`) -/

/-- Modelled from the spec: an affine per-access offset value (spec §3 —
`LabeledVector` maps a Dimension to "an integer or a dimension-constant
symbolic value").  `sym s a` stands for the symbolic value `s + a`, with `s`
an opaque non-numeric part (e.g. `x_m - x + 5` is `sym "x_m - x" 5`). -/
inductive Off where
  | int (n : Int)
  | sym (s : String) (n : Int)
deriving DecidableEq, Repr

/-- The difference of two `Off` values under sympy subtraction: an integer, a
symbol plus integer, a negated symbol plus integer, or a difference of two
distinct symbols plus integer. -/
inductive OffDiff where
  | int (n : Int)
  | pos (s : String) (n : Int)
  | neg (s : String) (n : Int)
  | psub (s t : String) (n : Int)
deriving DecidableEq, Repr

namespace Off

/-- Modelled from the spec: sympy subtraction of two affine offset values
(the `i-j` of `aliases.py` line 178 and `LabeledVector.distance`). -/
def sub : Off → Off → OffDiff
  | int a, int b => OffDiff.int (a - b)
  | sym s a, int b => OffDiff.pos s (a - b)
  | int a, sym t b => OffDiff.neg t (a - b)
  | sym s a, sym t b =>
      if s = t then OffDiff.int (a - b) else OffDiff.psub s t (a - b)

/-- Subtract an integer from an offset (sympy `ofs - k`). -/
def subInt : Off → Int → Off
  | int a, k => int (a - k)
  | sym s a, k => sym s (a - k)

/-- Whether the offset is a plain number. -/
def isInt : Off → Bool
  | int _ => true
  | sym _ _ => false

/-- The symbolic part of an offset, when present. -/
def symPart : Off → Option String
  | int _ => none
  | sym s _ => some s

/-- The numeric part of an offset. -/
def numPart : Off → Int
  | int n => n
  | sym _ n => n

end Off

/-- One component of an array index expression: affine in a dimension
(`d + o`), a plain number, or irregular (non-affine). -/
inductive Ix where
  | affine (d : Dim) (o : Off)
  | num (n : Int)
  | irregular
deriving DecidableEq, Repr

/-- Modelled from the spec: the opaque `Expr` capability (spec §6), restricted
to the shapes the claims exercise — array accesses, sums, differences and
opaque scalar symbols. -/
inductive SExpr where
  | access (f : String) (ixs : List Ix)
  | scalar (s : String)
  | add (a b : SExpr)
  | sub (a b : SExpr)
deriving DecidableEq, Repr

/-- Modelled from the spec: `compare_ops` (spec §6) — "structural
operator-tree equivalence ignoring index offsets": same operators and same
array/scalar operands, with the index offsets disregarded. -/
def compareOps : SExpr → SExpr → Bool
  | SExpr.access f _, SExpr.access g _ => f == g
  | SExpr.scalar a, SExpr.scalar b => a == b
  | SExpr.add a b, SExpr.add c d => compareOps a c && compareOps b d
  | SExpr.sub a b, SExpr.sub c d => compareOps a c && compareOps b d
  | _, _ => false

/-- Python `retrieve_indexed` (external `devito.symbolics`): the array accesses of an
expression in traversal order. -/
def retrieveIndexed : SExpr → List SExpr
  | SExpr.access f ixs => [SExpr.access f ixs]
  | SExpr.scalar _ => []
  | SExpr.add a b => retrieveIndexed a ++ retrieveIndexed b
  | SExpr.sub a b => retrieveIndexed a ++ retrieveIndexed b

/-- A `LabeledVector`: a mapping from Dimension to affine offset (spec §3). -/
abbrev LV := List (Dim × Off)

/-- A base index component recorded by `analyze`: the dimension symbol, or the
literal when the index is a plain number (`aliases.py` lines 477-482). -/
inductive Base where
  | dim (d : Dim)
  | num (n : Int)
deriving DecidableEq, Repr

/-- Python `Candidate` (`aliases.py` lines 508-525). -/
structure Candidate where
  expr : SExpr
  indexeds : List SExpr
  bases : List (List Base)
  offsets : List LV
deriving DecidableEq, Repr

/-- One assignment handed to the CIRE pass: left-hand side, right-hand side,
and the `is_Increment` flag consulted by `analyze`. -/
structure SEq where
  lhs : SExpr
  rhs : SExpr
  isIncrement : Bool := false
deriving DecidableEq, Repr

/-- Python `is_Indexed` of an expression. -/
def SExpr.isAccess : SExpr → Bool
  | SExpr.access _ _ => true
  | _ => false

/-- Whether an access has an irregular (non-affine) index component
(`IterationInstance.is_irregular`). -/
def hasIrregular : SExpr → Bool
  | SExpr.access _ ixs => ixs.any (fun i => match i with
      | Ix.irregular => true
      | _ => false)
  | _ => false

/-- The base components of an access (`aliases.py` lines 477-483). -/
def basesOf : SExpr → List Base
  | SExpr.access _ ixs => ixs.filterMap (fun i => match i with
      | Ix.affine d _ => some (Base.dim d)
      | Ix.num n => some (Base.num n)
      | Ix.irregular => none)
  | _ => []

/-- The offset components of an access (`aliases.py` lines 477-484). -/
def offsetsOf : SExpr → LV
  | SExpr.access _ ixs => ixs.filterMap (fun i => match i with
      | Ix.affine d o => some (d, o)
      | _ => none)
  | _ => []

/-- Python `analyze` (`aliases.py` lines 441-486): reject indexed/increment writes,
expressions without array reads, or irregular accesses; otherwise collect the
per-access bases and affine offsets into a `Candidate`. -/
def analyze (e : SEq) : Option Candidate :=
  if e.lhs.isAccess || e.isIncrement then none
  else
    let indexeds := retrieveIndexed e.rhs
    if indexeds.isEmpty then none
    else if indexeds.any hasIrregular then none
    else some { expr := e.rhs, indexeds := indexeds,
                bases := indexeds.map basesOf,
                offsets := indexeds.map offsetsOf }

/-- Append a value under a key of an ordered multimap, creating the key at the
end on first sight (Python `OrderedDict.setdefault(k, []).append(v)`). -/
def odAppend [DecidableEq κ] : List (κ × List β) → κ → β → List (κ × List β)
  | [], k, v => [(k, [v])]
  | (a, l) :: t, k, v =>
      if a = k then (a, l ++ [v]) :: t else (a, l) :: odAppend t k v

/-- Modelled from the spec: `LabeledVector.transpose` — per-access labelled
vectors transposed into per-label value vectors, accumulating per label in
first-seen order (spec §3, `Candidate.Toffsets`). -/
def transposeLV [DecidableEq κ] (vs : List (List (κ × β))) : List (κ × List β) :=
  vs.foldl (fun acc v => v.foldl (fun acc2 p => odAppend acc2 p.1 p.2) acc) []

/-- Python `Candidate.Toffsets` (`aliases.py` lines 519-521). -/
def Candidate.Toffsets (c : Candidate) : List (Dim × List Off) :=
  transposeLV c.offsets

/-- Python `Candidate.dimensions` (`aliases.py` lines 523-525): the set of dimensions
appearing in any offset. -/
def Candidate.dimensions (c : Candidate) : Finset Dim :=
  (c.Toffsets.map Prod.fst).toFinset

/-- Componentwise sympy subtraction of two per-dimension offset vectors
(the `i-j` of `aliases.py` line 178). -/
def vecSub (i j : List Off) : List OffDiff := List.zipWith Off.sub i j

/-- The absorption test of `collect`'s grouping loop (`aliases.py` lines
166-179): same dimension set, equivalent arithmetic structure, and along every
dimension the set of componentwise offset differences a single constant. -/
def absorbable (c u : Candidate) : Bool :=
  decide (c.dimensions = u.dimensions) && compareOps c.expr u.expr &&
    !((c.Toffsets.zip u.Toffsets).any
        (fun p => distinctCount (vecSub p.1.2 p.2.2) != 1))

/-- One pass of the grouping loop (`aliases.py` lines 165-182): absorb every
unseen candidate matching the anchor `c`, returning the absorbed candidates
and the remaining ones, both in order. -/
def absorbLoop (c : Candidate) :
    List Candidate → List Candidate × List Candidate
  | [] => ([], [])
  | u :: rest =>
      let (g, r) := absorbLoop c rest
      if absorbable c u then (u :: g, r) else (g, u :: r)

/-- The grouping phase of `collect` (`aliases.py` lines 159-184), fuel-indexed
by the list length so that it computes by reduction. -/
def groupCandidatesGo : Nat → List Candidate → List (List Candidate)
  | 0, _ => []
  | _ + 1, [] => []
  | fuel + 1, c :: rest =>
      let (g, r) := absorbLoop c rest
      (c :: g) :: groupCandidatesGo fuel r

/-- The groups produced by the grouping phase, in anchor order. -/
def groupCandidates (l : List Candidate) : List (List Candidate) :=
  groupCandidatesGo l.length l

theorem absorbLoop_eq_filter (c : Candidate) (l : List Candidate) :
    absorbLoop c l =
      (l.filter (absorbable c), l.filter (fun u => !absorbable c u)) := by
  induction l with
  | nil => rfl
  | cons u rest ih =>
    simp only [absorbLoop, ih]
    by_cases h : absorbable c u <;> simp [h, List.filter_cons]

theorem groupCandidates_head (c : Candidate) (rest : List Candidate) :
    (groupCandidates (c :: rest)).headD [] =
      c :: rest.filter (absorbable c) := by
  simp [groupCandidates, groupCandidatesGo, absorbLoop_eq_filter]

/-- The absorption condition as the claim states it. -/
def AbsorbCond (c u : Candidate) : Prop :=
  u.dimensions = c.dimensions ∧ compareOps c.expr u.expr = true ∧
    ∀ p ∈ c.Toffsets.zip u.Toffsets, distinctCount (vecSub p.1.2 p.2.2) = 1

theorem absorbable_iff (c u : Candidate) :
    absorbable c u = true ↔ AbsorbCond c u := by
  simp only [absorbable, Bool.and_eq_true, decide_eq_true_eq,
    Bool.not_eq_true', List.any_eq_false, bne_iff_ne, ne_eq, not_not,
    AbsorbCond]
  constructor
  · rintro ⟨⟨h1, h2⟩, h3⟩
    exact ⟨h1.symm, h2, h3⟩
  · rintro ⟨h1, h2, h3⟩
    exact ⟨⟨h1.symm, h2⟩, h3⟩

/-! Literal grouping scenario of the spec (§8). -/

/-- Dimension `i` of the literal scenario. -/
def dimI : Dim := 0

/-- Dimension `j` of the literal scenario. -/
def dimJ : Dim := 1

/-- A one-dimensional array access `f[d + o]`. -/
def acc1 (f : String) (d : Dim) (o : Int) : SExpr :=
  SExpr.access f [Ix.affine d (Off.int o)]

/-- Python `a[i+1] + b[i+1]`. -/
def exprC1a : SExpr := SExpr.add (acc1 "a" dimI 1) (acc1 "b" dimI 1)

/-- Python `a[i-1] + b[i-1]`. -/
def exprC1b : SExpr := SExpr.add (acc1 "a" dimI (-1)) (acc1 "b" dimI (-1))

/-- Python `a[i+1] + b[j+1]`. -/
def exprC1c : SExpr := SExpr.add (acc1 "a" dimI 1) (acc1 "b" dimJ 1)

/-- Python `a[i] + c[i]`. -/
def exprC1d : SExpr := SExpr.add (acc1 "a" dimI 0) (acc1 "c" dimI 0)

/-- Python `a[i+2] - b[i+2]`. -/
def exprC1e : SExpr := SExpr.sub (acc1 "a" dimI 2) (acc1 "b" dimI 2)

/-- Python `a[i+2] + b[i]`. -/
def exprC1f : SExpr := SExpr.add (acc1 "a" dimI 2) (acc1 "b" dimI 0)

/-- An assignment of an expression to a fresh scalar. -/
def mkEq (name : String) (rhs : SExpr) : SEq :=
  { lhs := SExpr.scalar name, rhs := rhs }

/-- The six literal expressions handed to `collect`. -/
def sEqsC1 : List SEq :=
  [mkEq "t0" exprC1a, mkEq "t1" exprC1b, mkEq "t2" exprC1c,
   mkEq "t3" exprC1d, mkEq "t4" exprC1e, mkEq "t5" exprC1f]

/-- Claim C1: in `collect`'s grouping phase, an unassigned Candidate `u` is
absorbed into the group anchored at the current first Candidate `c` if and
only if `u` has the same dimension set as `c`, `compare_ops(c.expr, u.expr)`
holds, and for every dimension the componentwise difference of `c`'s and
`u`'s transposed per-access offsets is a single constant; and on the six
literal expressions the group anchored at the first candidate is exactly
{a[i+1]+b[i+1], a[i-1]+b[i-1]}, excluding the other four. -/
theorem claim_C1_grouping :
    (∀ (c : Candidate) (rest : List Candidate) (u : Candidate),
        u ∈ (groupCandidates (c :: rest)).headD [] ↔
          u = c ∨ (u ∈ rest ∧ AbsorbCond c u)) ∧
    ((groupCandidates (sEqsC1.filterMap analyze)).headD []).map
        Candidate.expr = [exprC1a, exprC1b] := by
  constructor
  · intro c rest u
    rw [groupCandidates_head]
    simp only [List.mem_cons, List.mem_filter, absorbable_iff]
  · decide

/-! ## `collect`: maximum distances, legal shifts, Basis Alias construction -/

/-- A Group: a list of aliasing candidates, the anchor (pivot) first
(`aliases.py` lines 528-551). -/
abbrev Group := List Candidate

/-- Helper for `columns`, fuel-indexed. -/
def columnsGo : Nat → List (List α) → List (List α)
  | 0, _ => []
  | n + 1, ls =>
      if ls.isEmpty || ls.any List.isEmpty then []
      else (ls.filterMap List.head?) :: columnsGo n (ls.map List.tail)

/-- Python `zip(*rows)`: the columns of a list of rows, truncated at the
shortest row. -/
def columns (ls : List (List α)) : List (List α) :=
  columnsGo (match ls with | [] => 0 | l :: _ => l.length) ls

/-- Python `Group.Toffsets` (`aliases.py` lines 537-539): per access position, the
transpose across the members' offset vectors. -/
def groupToffsets (g : Group) : List (List (Dim × List Off)) :=
  (columns (g.map Candidate.offsets)).map transposeLV

/-- The flattened `(d, v)` entries of `Group.Toffsets`, in iteration order
(`for i in group.Toffsets: for d, v in i`). -/
def groupTEntries (g : Group) : List (Dim × List Off) :=
  (groupToffsets g).flatten

/-- The function (array) symbol of an access. -/
def funcOf : SExpr → String
  | SExpr.access f _ => f
  | _ => ""

/-- Ordered-dict assignment: set a key's value, keeping its position when the
key is present and appending otherwise. -/
def odSet [DecidableEq κ] : List (κ × β) → κ → β → List (κ × β)
  | [], k, v => [(k, v)]
  | (a, b) :: t, k, v =>
      if a = k then (k, v) :: t else (a, b) :: odSet t k v

/-- First-match lookup in an association list (dict lookup). -/
def lookupA [DecidableEq κ] : List (κ × β) → κ → Option β
  | [], _ => none
  | (a, b) :: t, k => if a = k then some b else lookupA t k

/-- Python `Group._pivot_legal_shifts` (`aliases.py` lines 582-606): per dimension
the pair `(maxd, mini)` — the most negative and the most positive legal shift
of the pivot — accumulated over the pivot's accesses as
`maxd = max(maxd, -ofs)` and `mini = min(mini, halo(f, d) - ofs)` from the
initial `(-inf, inf)`; a symbolic offset takes the `TypeError` branch and
overwrites the entry with `(0, 0)`.  `halo f d` stands for
`sum(f._size_halo[d])`, external function metadata (spec §6). -/
def pivotLegalShifts (halo : String → Dim → Int) (c : Candidate) :
    List (Dim × (Int × Int)) :=
  (c.indexeds.zip c.offsets).foldl
    (fun acc p =>
      p.2.foldl
        (fun acc2 q =>
          match q.2 with
          | Off.sym _ _ => odSet acc2 q.1 (0, 0)
          | Off.int n =>
              match lookupA acc2 q.1 with
              | none => odSet acc2 q.1 (-n, halo (funcOf p.1) q.1 - n)
              | some (a, b) =>
                  odSet acc2 q.1
                    (max a (-n), min b (halo (funcOf p.1) q.1 - n)))
        acc)
    []

/-- Modelled from the spec: `Group.mlds` — the Group's maximum legal decrement
along `d`.  The attribute is referenced by `collect` (`aliases.py` lines 241,
264) but not defined in the source; per spec §4 step 4/6 and the worked
comment at `aliases.py` lines 233-238 it is the magnitude of the most
negative legal pivot shift, i.e. `-maxd` from `_pivot_legal_shifts`. -/
def mldsOf (halo : String → Dim → Int) (g : Group) (d : Dim) : Int :=
  match g with
  | [] => 0
  | c :: _ => -((lookupA (pivotLegalShifts halo c) d).getD (0, 0)).1

/-- Modelled from the spec: `Group.mlis` — the Group's maximum legal increment
along `d` (also referenced but not defined in the source): the most positive
legal pivot shift, i.e. `mini` from `_pivot_legal_shifts`. -/
def mlisOf (halo : String → Dim → Int) (g : Group) (d : Dim) : Int :=
  match g with
  | [] => 0
  | c :: _ => ((lookupA (pivotLegalShifts halo c) d).getD (0, 0)).2

/-- Maximum of a list of integers (meaningful on nonempty input). -/
def intMaxL (l : List Int) : Int := l.foldl max (l.headD 0)

/-- Minimum of a list of integers (meaningful on nonempty input). -/
def intMinL (l : List Int) : Int := l.foldl min (l.headD 0)

/-- Whether sympy comparisons over the offset vector evaluate: every pairwise
difference is numeric, i.e. the entries are all plain numbers or all share one
symbolic part (a relational such as `x_m+2 > x_m+5` auto-evaluates, whereas
mixed or different-symbol comparisons stay symbolic and `bool()` raises
`TypeError`). -/
def offsComparable (v : List Off) : Bool :=
  decide (distinctCount (v.map Off.symPart) = 1)

/-- Python `min(v)` over pairwise-comparable offsets: the entry with the least
numeric part, carrying the shared symbolic part if any. -/
def offMinC (v : List Off) : Off :=
  match v.headD (Off.int 0) with
  | Off.int _ => Off.int (intMinL (v.map Off.numPart))
  | Off.sym s _ => Off.sym s (intMinL (v.map Off.numPart))

/-- One `(d, v)` entry of the MD computation (`aliases.py` lines 208-217):
`int(max(v) - min(v))`.  Sympy `max`/`min` succeed exactly when the entries
are pairwise comparable (see `offsComparable`), giving the spread of the
numeric parts — in particular same-symbol offsets differing by integers get an
integer distance and keep the Group.  Otherwise the `TypeError` branch yields
0 when the entries are all identical (unreachable, since identical entries are
comparable, but kept for structural fidelity to the source's branches) and
otherwise raises the `ValueError` that drops the Group (`none`). -/
def mdEntryDistance (v : List Off) : Option Int :=
  if offsComparable v then
    some (intMaxL (v.map Off.numPart) - intMinL (v.map Off.numPart))
  else if distinctCount v = 1 then some 0
  else none

/-- Python `mds[d] = max(mds.get(d, 0), distance)` (`aliases.py` line 218), keyed in
first-touch order. -/
def odMaxD : List (Dim × Int) → Dim → Int → List (Dim × Int)
  | [], d, v => [(d, max 0 v)]
  | (a, b) :: t, d, v =>
      if a = d then (a, max b v) :: t else (a, b) :: odMaxD t d v

/-- The per-group body of the MD loop: thread the `(d, v)` entries in order,
updating `mds`; a non-uniform symbolic entry aborts the group and — exactly as
in the source, where the dict is mutated in place before the `ValueError` is
raised — the updates made so far persist. -/
def mdsGroupGo : List (Dim × Int) → List (Dim × List Off) →
    List (Dim × Int) × Bool
  | mds, [] => (mds, true)
  | mds, (d, v) :: t =>
      match mdEntryDistance v with
      | some dist => mdsGroupGo (odMaxD mds d dist) t
      | none => (mds, false)

/-- Helper for `mdsPhase`, threading the `mds` accumulator. -/
def mdsPhaseGo (mds : List (Dim × Int)) : List Group →
    List (Dim × Int) × List Group
  | [] => (mds, [])
  | g :: t =>
      match mdsGroupGo mds (groupTEntries g) with
      | (mds', true) =>
          let (m, ks) := mdsPhaseGo mds' t
          (m, g :: ks)
      | (mds', false) => mdsPhaseGo mds' t

/-- The MD phase (`aliases.py` lines 200-220): per-dimension maximum distances
across all groups, dropping any group with non-uniform symbolic components. -/
def mdsPhase (groups : List Group) : List (Dim × Int) × List Group :=
  mdsPhaseGo [] groups

/-- A per-dimension shift mapper (`defaultdict(int)`). -/
abbrev ShiftMap := List (Dim × Int)

/-- The per-group shift computation (`aliases.py` lines 255-270): for each
`(d, v)` entry, `n_extra_iters = mds[d] - group.mlis[d]`; nothing to do when
it is non-positive, record `mapper[d] = max(mapper[d], n_extra_iters)` when it
fits in the legal decrement budget, and drop the group (`none`) otherwise. -/
def shiftGroupGo (halo : String → Dim → Int) (mds : List (Dim × Int))
    (g : Group) : List (Dim × List Off) → ShiftMap → Option ShiftMap
  | [], m => some m
  | (d, _) :: t, m =>
      let nExtra := (lookupA mds d).getD 0 - mlisOf halo g d
      if nExtra ≤ 0 then shiftGroupGo halo mds g t m
      else if nExtra ≤ mldsOf halo g d then
        shiftGroupGo halo mds g t (odMaxD m d nExtra)
      else none

/-- The shift mapper of one group, or `none` when the group must be dropped. -/
def shiftGroup (halo : String → Dim → Int) (mds : List (Dim × Int))
    (g : Group) : Option ShiftMap :=
  shiftGroupGo halo mds g (groupTEntries g) []

/-- The shift phase (`aliases.py` lines 252-272): keep each group paired with
its shift mapper, dropping groups that need a shift beyond their budget. -/
def shiftsPhase (halo : String → Dim → Int) (mds : List (Dim × Int)) :
    List Group → List Group × List ShiftMap
  | [] => ([], [])
  | g :: t =>
      match shiftGroup halo mds g with
      | some m =>
          let (gs, ms) := shiftsPhase halo mds t
          (g :: gs, m :: ms)
      | none => shiftsPhase halo mds t

/-- The failures with which `collect` can abort: the `AssertionError` of the
Basis-Alias offset construction (`aliases.py` line 298) and the `ValueError`
of the distance computation (line 319). -/
inductive CErr where
  | assertFailed
  | nonUniformDistance
deriving DecidableEq, Repr

/-- Python `np.mean(v, dtype=int)` (`aliases.py` line 287): the float mean cast to
int, i.e. truncated toward zero. -/
def intMean (l : List Int) : Int := Int.tdiv (l.foldl (· + ·) 0) l.length

/-- Python `pick` plus its symbolic fallback (`aliases.py` lines 284-300).
With shifting, `pick` is `min(v) - shift[d]`, which succeeds exactly when the
entries are pairwise comparable (see `offsComparable`, covering same-symbol
entries differing by integers); without shifting it is `np.mean(v,
dtype=int)`, which succeeds exactly on plain numbers.  A `TypeError` falls
back to asserting that the entries are identical and yields
`v[0] - shift[d]`; a failed assertion aborts `collect`. -/
def pickOffsets (anyShift : Bool) (shift : ShiftMap)
    (tofs : List (Dim × List Off)) : Except CErr LV :=
  tofs.mapM (fun p =>
    let s := (lookupA shift p.1).getD 0
    if anyShift then
      if offsComparable p.2 then
        Except.ok (p.1, (offMinC p.2).subInt s)
      else if distinctCount p.2 = 1 then
        Except.ok (p.1, (p.2.headD (Off.int 0)).subInt s)
      else Except.error CErr.assertFailed
    else
      if p.2.all Off.isInt then
        Except.ok (p.1, Off.int (intMean (p.2.map Off.numPart)))
      else if distinctCount p.2 = 1 then
        Except.ok (p.1, (p.2.headD (Off.int 0)).subInt s)
      else Except.error CErr.assertFailed)

/-- The `offsetss` loop (`aliases.py` lines 288-301). -/
def computeOffsetss (anyShift : Bool) (pairs : List (Group × ShiftMap)) :
    Except CErr (List (List LV)) :=
  pairs.mapM (fun p => (groupToffsets p.1).mapM (pickOffsets anyShift p.2))

/-- Python `Aliases` (`aliases.py` lines 609-646): an ordered map from Basis-Alias
expression to the aliased expressions and their distance vectors, plus the
owned dimensions and iteration intervals.  The `index_mapper` stays empty here
because the modelled dimensions are plain (never incrementing), so the
substitution branch of `Aliases.add` never fires. -/
structure Aliases where
  entries : List (SExpr × (List SExpr × List (List (Dim × OffDiff)))) := []
  dimensions : List Dim := []
  intervals : List AbsInterval := []
deriving DecidableEq, Repr

/-- Python `Aliases.add` (`aliases.py` lines 622-636), over plain dimensions. -/
def Aliases.add (a : Aliases) (aliasE : SExpr) (aliaseds : List SExpr)
    (distances : List (List (Dim × OffDiff))) : Aliases :=
  { a with entries := odSet a.entries aliasE (aliaseds, distances) }

/-- Python `Aliases.get` (`aliases.py` lines 638-646): the aliased expressions of a
Basis Alias, or the containing aliased list when the key is itself an aliased
expression, or the empty list. -/
def Aliases.get (a : Aliases) (key : SExpr) : List SExpr :=
  match lookupA a.entries key with
  | some r => r.1
  | none =>
      match a.entries.find? (fun e => decide (key ∈ e.2.1)) with
      | some e => e.2.1
      | none => []

/-- Dict-style lookup where a later binding of the same key wins, as when a
Python dict is built from a comprehension with duplicate keys. -/
def lookupLast [DecidableEq κ] (m : List (κ × β)) (k : κ) : Option β :=
  lookupA m.reverse k

/-- Python `xreplace` (sympy, spec §6 "structural substitution"): top-down structural
replacement; a node found in the map is replaced without descending into it. -/
def xreplace (m : List (SExpr × SExpr)) : SExpr → SExpr
  | SExpr.add a b =>
      match lookupLast m (SExpr.add a b) with
      | some r => r
      | none => SExpr.add (xreplace m a) (xreplace m b)
  | SExpr.sub a b =>
      match lookupLast m (SExpr.sub a b) with
      | some r => r
      | none => SExpr.sub (xreplace m a) (xreplace m b)
  | e => (lookupLast m e).getD e

/-- The Basis-Alias access replacing one original access (`aliases.py` line
307): `i.function[[x + v.fromlabel(x, 0) for x in b]]`. -/
def buildIndexed (i : SExpr) (b : List Base) (v : LV) : SExpr :=
  SExpr.access (funcOf i)
    (b.map (fun x => match x with
      | Base.dim d => Ix.affine d ((lookupA v d).getD (Off.int 0))
      | Base.num n => Ix.num n))

/-- Modelled from the spec: `LabeledVector.distance` — the per-dimension
displacement of one labelled vector from another (spec §3). -/
def lvDistance (o v : LV) : List (Dim × OffDiff) :=
  o.map (fun p => (p.1, Off.sub p.2 ((lookupA v p.1).getD (Off.int 0))))

/-- The distance of one Group member from the Basis Alias (`aliases.py` lines
313-320): the access-wise distances transposed per dimension must be a single
value each; otherwise the `ValueError` aborts the whole `collect` call. -/
def memberDistance (offsets : List LV) (c : Candidate) :
    Except CErr (List (Dim × OffDiff)) :=
  let tr := transposeLV
    ((c.offsets.zip offsets).map (fun p => lvDistance p.1 p.2))
  if tr.any (fun q => distinctCount q.2 != 1) then
    Except.error CErr.nonUniformDistance
  else Except.ok (tr.map (fun q => (q.1, q.2.headD (OffDiff.int 0))))

/-- The Basis-Alias construction loop (`aliases.py` lines 303-322):
substitute the basis offsets into the pivot expression, collect the aliased
expressions and their distances, and `add` the result. -/
def buildAliasesGo (acc : Aliases) :
    List (Group × List LV) → Except CErr Aliases
  | [] => Except.ok acc
  | (g, offsets) :: t =>
      match g with
      | [] => buildAliasesGo acc t
      | c :: _ =>
          let subs := (c.indexeds.zip (c.bases.zip offsets)).map
            (fun p => (p.1, buildIndexed p.1 p.2.1 p.2.2))
          let aliasE := xreplace subs c.expr
          let aliaseds := g.map Candidate.expr
          match g.mapM (memberDistance offsets) with
          | Except.error e => Except.error e
          | Except.ok distances =>
              buildAliasesGo (acc.add aliasE aliaseds distances) t

/-- Bucket the groups by the dimension set of their anchor, in first-seen
order (`mapper.setdefault(c.dimensions, []).append(Group(group))`,
`aliases.py` line 184). -/
def bucketGroups (gs : List (List Candidate)) :
    List (Finset Dim × List Group) :=
  gs.foldl (fun acc g =>
    odAppend acc (match g with | [] => ∅ | c :: _ => c.dimensions) g) []

/-- Python `collect` (`aliases.py` lines 123-324).  The interactive-debugger drops,
the `rotationss` assertion and the unused `intervalss` rotation table (dead
intermediates, spec §9), and the `ShiftedDimension` filtering of `mds` (a
no-op over plain dimensions) do not touch the data flow and are omitted;
`halo` abstracts the array halo metadata.  The processed bucket is the
last-inserted dimension set (`mapper.popitem()`), and an empty mapper returns
an empty `Aliases` (the `KeyError` branch). -/
def collect (halo : String → Dim → Int) (exprs : List SEq) :
    Except CErr Aliases :=
  let candidates := exprs.filterMap analyze
  let buckets := bucketGroups (groupCandidates candidates)
  match buckets.getLast? with
  | none => Except.ok {}
  | some (_, groups0) =>
      let (mds, groups1) := mdsPhase groups0
      let (groups2, shifts) := shiftsPhase halo mds groups1
      let anyShift := shifts.any (fun m => !m.isEmpty)
      let intervals :=
        if anyShift then
          mds.map (fun p => AbsInterval.defined p.1 0 p.2)
        else
          mds.map (fun p =>
            AbsInterval.defined p.1 (Int.fdiv (-p.2) 2) (Int.fdiv (p.2 + 1) 2))
      match computeOffsetss anyShift (groups2.zip shifts) with
      | Except.error e => Except.error e
      | Except.ok offsetss =>
          buildAliasesGo
            { entries := [], dimensions := mds.map Prod.fst,
              intervals := intervals }
            (groups2.zip offsetss)

/-! ## `choose` and the `cire` pipeline -/

/-- Python `MIN_COST_ALIAS` (`aliases.py` line 18). -/
def MIN_COST_ALIAS : Nat := 10

/-- Python `MIN_COST_ALIAS_INV` (`aliases.py` line 24). -/
def MIN_COST_ALIAS_INV : Nat := 50

/-- The selection test of `choose` (`aliases.py` lines 335-341), with
`estimate_cost(e, True)` and time-invariance of the right-hand side as opaque
capabilities (spec §6). -/
def selTest (est : SEq → Nat) (tinv : SExpr → Bool) (aliases : Aliases)
    (e : SEq) : Bool :=
  let naliases := (aliases.get e.rhs).length
  let cost := est e * naliases
  (decide (MIN_COST_ALIAS ≤ cost) && decide (1 < naliases)) ||
    (decide (MIN_COST_ALIAS_INV ≤ cost) && tinv e.rhs)

/-- The accumulating loop of `choose` (`aliases.py` lines 332-344). -/
def chooseGo (est : SEq → Nat) (tinv : SExpr → Bool) (aliases : Aliases) :
    List SEq → List (SExpr × SExpr) → List SEq →
      List (SExpr × SExpr) × List SEq
  | [], cands, procs => (cands, procs)
  | e :: t, cands, procs =>
      if selTest est tinv aliases e then
        chooseGo est tinv aliases t (odSet cands e.rhs e.lhs) procs
      else chooseGo est tinv aliases t cands (procs ++ [e])

/-- Python `choose` (`aliases.py` lines 327-346): the selected candidates (an
ordered `rhs ↦ lhs` map) and the passed-through expressions. -/
def choose (est : SEq → Nat) (tinv : SExpr → Bool) (exprs : List SEq)
    (aliases : Aliases) : List (SExpr × SExpr) × List SEq :=
  chooseGo est tinv aliases exprs [] []

/-- Python `cire` (`aliases.py` lines 33-99): extract, collect, choose, then either
return the input cluster untouched or the materialized clusters followed by
the rebuilt original.  `extract`, `process` and `rebuild` exercise only
external collaborators (`yreplace`, `Array`/`Eq` construction,
`IterationSpace` surgery) and are abstracted as opaque functions; a failure
inside `collect` propagates. -/
def cire {Cluster Subs : Type} (extractF : Cluster → List SEq)
    (halo : String → Dim → Int) (est : SEq → Nat) (tinv : SExpr → Bool)
    (processF : Cluster → List (SExpr × SExpr) → Aliases →
      List Cluster × Subs)
    (rebuildF : Cluster → List SEq → Aliases → Subs → Cluster)
    (cluster : Cluster) : Except CErr (Cluster ⊕ List Cluster) :=
  let exprs := extractF cluster
  match collect halo exprs with
  | Except.error e => Except.error e
  | Except.ok aliases =>
      let (candidates, others) := choose est tinv exprs aliases
      if candidates.isEmpty then Except.ok (Sum.inl cluster)
      else
        let (clusters, subs) := processF cluster candidates aliases
        Except.ok
          (Sum.inr (clusters ++ [rebuildF cluster others aliases subs]))



/-! ## Helper lemmas for the phase characterizations -/

theorem chooseGo_processed (est : SEq → Nat) (tinv : SExpr → Bool)
    (al : Aliases) :
    ∀ (exprs : List SEq) (cands : List (SExpr × SExpr)) (procs : List SEq),
      (chooseGo est tinv al exprs cands procs).2 =
        procs ++ exprs.filter (fun e => !selTest est tinv al e) := by
  intro exprs
  induction exprs with
  | nil => intro cands procs; simp [chooseGo]
  | cons e t ih =>
    intro cands procs
    by_cases h : selTest est tinv al e
    · simp [chooseGo, h, ih]
    · simp [chooseGo, h, ih]

theorem mdsGroupGo_snd (entries : List (Dim × List Off)) :
    ∀ mds, (mdsGroupGo mds entries).2 =
      entries.all (fun p => (mdEntryDistance p.2).isSome) := by
  induction entries with
  | nil => intro mds; rfl
  | cons p t ih =>
    intro mds
    obtain ⟨d, v⟩ := p
    cases h : mdEntryDistance v with
    | none => simp [mdsGroupGo, h]
    | some dist => simp [mdsGroupGo, h, ih]

theorem mdsPhaseGo_kept : ∀ (groups : List Group) (mds : List (Dim × Int)),
    (mdsPhaseGo mds groups).2 =
      groups.filter (fun g =>
        (groupTEntries g).all (fun p => (mdEntryDistance p.2).isSome)) := by
  intro groups
  induction groups with
  | nil => intro mds; rfl
  | cons g t ih =>
    intro mds
    have hsnd := mdsGroupGo_snd (groupTEntries g) mds
    cases hmm : mdsGroupGo mds (groupTEntries g) with
    | mk mds' b =>
      rw [hmm] at hsnd
      cases b with
      | true =>
        simp only [mdsPhaseGo, hmm, List.filter_cons]
        rw [← hsnd]
        simp [ih]
      | false =>
        simp only [mdsPhaseGo, hmm, List.filter_cons]
        rw [← hsnd]
        simp [ih]

/-- The drop condition of the shift phase, as the claim states it: along `d`,
the excess of the maximum distance over the Group's maximum legal increment is
positive and exceeds its maximum legal decrement. -/
def ShiftExceeds (halo : String → Dim → Int) (mds : List (Dim × Int))
    (g : Group) (d : Dim) : Prop :=
  0 < (lookupA mds d).getD 0 - mlisOf halo g d ∧
    mldsOf halo g d < (lookupA mds d).getD 0 - mlisOf halo g d

theorem shiftGroupGo_none_iff (halo : String → Dim → Int)
    (mds : List (Dim × Int)) (g : Group) :
    ∀ (entries : List (Dim × List Off)) (m : ShiftMap),
      shiftGroupGo halo mds g entries m = none ↔
        ∃ p ∈ entries, ShiftExceeds halo mds g p.1 := by
  intro entries
  induction entries with
  | nil => intro m; simp [shiftGroupGo]
  | cons p t ih =>
    intro m
    obtain ⟨d, v⟩ := p
    by_cases h1 : (lookupA mds d).getD 0 - mlisOf halo g d ≤ 0
    · rw [show shiftGroupGo halo mds g ((d, v) :: t) m =
          shiftGroupGo halo mds g t m from by simp [shiftGroupGo, h1]]
      rw [ih]
      constructor
      · rintro ⟨q, hq, hex⟩
        exact ⟨q, List.mem_cons_of_mem _ hq, hex⟩
      · rintro ⟨q, hq, hex⟩
        rcases List.mem_cons.mp hq with hq1 | hq2
        · subst hq1
          exact absurd hex.1 (not_lt.mpr h1)
        · exact ⟨q, hq2, hex⟩
    · by_cases h2 : (lookupA mds d).getD 0 - mlisOf halo g d ≤
          mldsOf halo g d
      · rw [show shiftGroupGo halo mds g ((d, v) :: t) m =
            shiftGroupGo halo mds g t
              (odMaxD m d ((lookupA mds d).getD 0 - mlisOf halo g d)) from by
            simp [shiftGroupGo, h1, h2]]
        rw [ih]
        constructor
        · rintro ⟨q, hq, hex⟩
          exact ⟨q, List.mem_cons_of_mem _ hq, hex⟩
        · rintro ⟨q, hq, hex⟩
          rcases List.mem_cons.mp hq with hq1 | hq2
          · subst hq1
            exact absurd hex.2 (not_lt.mpr h2)
          · exact ⟨q, hq2, hex⟩
      · rw [show shiftGroupGo halo mds g ((d, v) :: t) m = none from by
            simp [shiftGroupGo, h1, h2]]
        constructor
        · intro _
          refine ⟨(d, v), List.mem_cons_self _ _, ?_⟩
          show ShiftExceeds halo mds g d
          exact ⟨by omega, by omega⟩
        · intro _
          rfl

theorem shiftsPhase_eq (halo : String → Dim → Int) (mds : List (Dim × Int)) :
    ∀ groups : List Group,
      shiftsPhase halo mds groups =
        (groups.filter (fun g => (shiftGroup halo mds g).isSome),
         groups.filterMap (shiftGroup halo mds)) := by
  intro groups
  induction groups with
  | nil => rfl
  | cons g t ih =>
    cases h : shiftGroup halo mds g with
    | none =>
        simp [shiftsPhase, h, ih, List.filter_cons, List.filterMap_cons]
    | some m =>
        simp [shiftsPhase, h, ih, List.filter_cons, List.filterMap_cons]

/-! ## Concrete scenarios -/

/-- Dimension `x` of the concrete `collect`/`choose` scenarios. -/
def dimX : Dim := 0

/-- Python `a[x]`. -/
def exprA0 : SExpr := acc1 "a" dimX 0

/-- Python `a[x+3]`. -/
def exprA3 : SExpr := acc1 "a" dimX 3

/-- Python `b[x]`. -/
def exprB0 : SExpr := acc1 "b" dimX 0

/-- Python `b[x+3]`. -/
def exprB3 : SExpr := acc1 "b" dimX 3

/-- The shift-budget scenario: two groups over the same dimension set, where
array `b`'s halo is too small for the required shift. -/
def sEqsC3 : List SEq :=
  [mkEq "t0" exprA0, mkEq "t1" exprA3, mkEq "t2" exprB0, mkEq "t3" exprB3]

/-- Halo metadata of the shift-budget scenario: `a` has a halo of 10, `b` of
only 1, so the `b` group's excess `mds[x] - mlis[x] = 3 - 1 = 2` exceeds its
legal decrement budget 0. -/
def haloC3 : String → Dim → Int := fun f _ => if f = "a" then 10 else 1

/-- Python `s[x + m]` with `m` an opaque symbolic offset. -/
def exprS1 : SExpr := SExpr.access "s" [Ix.affine dimX (Off.sym "m" 0)]

/-- Python `s[x + k]` with `k` a different opaque symbolic offset. -/
def exprS2 : SExpr := SExpr.access "s" [Ix.affine dimX (Off.sym "k" 0)]

/-- Python `t[x]`. -/
def exprT0 : SExpr := acc1 "t" dimX 0

/-- Python `t[x+2]`. -/
def exprT2 : SExpr := acc1 "t" dimX 2

/-- The MD-phase symbolic-drop scenario: the `s` group has non-identical
symbolic offsets, the `t` group is plain. -/
def sEqsC4a : List SEq :=
  [mkEq "u0" exprS1, mkEq "u1" exprS2, mkEq "u2" exprT0, mkEq "u3" exprT2]

/-- Halo metadata of the symbolic scenarios (ample everywhere). -/
def haloC4 : String → Dim → Int := fun _ _ => 5

/-- Python `p[x] + q[x-1]`. -/
def exprP0 : SExpr := SExpr.add (acc1 "p" dimX 0) (acc1 "q" dimX (-1))

/-- Python `p[x+1] + q[x]`. -/
def exprP1 : SExpr := SExpr.add (acc1 "p" dimX 1) (acc1 "q" dimX 0)

/-- The distance-abort scenario: one group, no shifting, whose truncated-mean
basis offsets give member distances that differ across the two accesses. -/
def sEqsC4b : List SEq := [mkEq "v0" exprP0, mkEq "v1" exprP1]

/-- Python `r[x]`. -/
def exprR1 : SExpr := acc1 "r" dimX 0

/-- Python `r[x+1]`. -/
def exprR2 : SExpr := acc1 "r" dimX 1

/-- The Basis Alias `r[x+2]` of the cost-gate scenarios. -/
def basisC2 : SExpr := acc1 "r" dimX 2

/-- An `Aliases` map in which `r[x]` occurs in two aliasing positions. -/
def aliasesC2two : Aliases := { entries := [(basisC2, ([exprR1, exprR2], []))] }

/-- An `Aliases` map in which `r[x]` occurs in one aliasing position. -/
def aliasesC2one : Aliases := { entries := [(basisC2, ([exprR1], []))] }

/-- The extracted expression `t9 = r[x]` of the cost-gate scenarios. -/
def eqC2 : SEq := mkEq "t9" exprR1

/-- The Aliases value `collect` returns on the shift-budget scenario: the `a`
group alone, with basis `a[x+1]` (truncated mean of offsets 0 and 3) and
member distances −1 and 2. -/
def aliasesC3 : Aliases :=
  { entries := [(acc1 "a" dimX 1,
      ([exprA0, exprA3],
       [[(dimX, OffDiff.int (-1))], [(dimX, OffDiff.int 2)]]))],
    dimensions := [dimX],
    intervals := [AbsInterval.defined dimX (-2) 2] }

/-- The Aliases value `collect` returns on the symbolic-drop scenario: the `t`
group alone, with basis `t[x+1]` and member distances −1 and 1. -/
def aliasesC4a : Aliases :=
  { entries := [(acc1 "t" dimX 1,
      ([exprT0, exprT2],
       [[(dimX, OffDiff.int (-1))], [(dimX, OffDiff.int 1)]]))],
    dimensions := [dimX],
    intervals := [AbsInterval.defined dimX (-1) 1] }

/-! ## Claims C2, C3, C4, C5, C10 -/

/-- Claim C2: `choose` selects an extracted expression `e` (with `n` the
number of aliases of `e.rhs` and `cost = estimate_cost(e, True) * n`) iff
`cost >= 10 and n > 1` or `cost >= 50 and e.rhs is time-invariant`; an
expression of cost 6 in two aliasing positions is selected while the same
expression in one position is not, regardless of time-invariance; and every
non-selected expression passes through unchanged. -/
theorem claim_C2_choose_cost_gate :
    (∀ (est : SEq → Nat) (tinv : SExpr → Bool) (exprs : List SEq)
        (al : Aliases) (e : SEq),
        e ∈ (choose est tinv exprs al).2 ↔
          e ∈ exprs ∧
            ¬ ((MIN_COST_ALIAS ≤ est e * (al.get e.rhs).length ∧
                  1 < (al.get e.rhs).length) ∨
                (MIN_COST_ALIAS_INV ≤ est e * (al.get e.rhs).length ∧
                  tinv e.rhs = true))) ∧
    (∀ (est : SEq → Nat) (tinv : SExpr → Bool) (exprs : List SEq)
        (al : Aliases),
        (choose est tinv exprs al).2 =
          exprs.filter (fun e => !selTest est tinv al e)) ∧
    (∀ tinv : SExpr → Bool,
        choose (fun _ => 6) tinv [eqC2] aliasesC2two =
          ([(exprR1, SExpr.scalar "t9")], [])) ∧
    (∀ tinv : SExpr → Bool,
        choose (fun _ => 6) tinv [eqC2] aliasesC2one = ([], [eqC2])) := by
  have hproc : ∀ (est : SEq → Nat) (tinv : SExpr → Bool) (exprs : List SEq)
      (al : Aliases),
      (choose est tinv exprs al).2 =
        exprs.filter (fun e => !selTest est tinv al e) := by
    intro est tinv exprs al
    rw [choose, chooseGo_processed]
    simp
  refine ⟨?_, hproc, ?_, ?_⟩
  · intro est tinv exprs al e
    rw [hproc]
    simp only [List.mem_filter, Bool.not_eq_true', selTest,
      Bool.or_eq_false_iff, Bool.and_eq_false_iff, decide_eq_false_iff_not,
      not_le, not_lt]
    constructor
    · rintro ⟨hmem, hsel⟩
      refine ⟨hmem, ?_⟩
      rintro (⟨hc, hn⟩ | ⟨hc, ht⟩)
      · rcases hsel.1 with h | h <;> omega
      · rcases hsel.2 with h | h
        · omega
        · simp [ht] at h
    · rintro ⟨hmem, hsel⟩
      refine ⟨hmem, ?_, ?_⟩
      · by_contra hcon
        push_neg at hcon
        exact hsel (Or.inl ⟨by omega, by omega⟩)
      · by_contra hcon
        push_neg at hcon
        obtain ⟨hc, ht⟩ := hcon
        exact hsel (Or.inr ⟨by omega, by simpa using ht⟩)
  · intro tinv
    have hget : aliasesC2two.get exprR1 = [exprR1, exprR2] := by decide
    simp [choose, chooseGo, selTest, hget, odSet, MIN_COST_ALIAS,
      MIN_COST_ALIAS_INV, eqC2, mkEq]
  · intro tinv
    have hget : aliasesC2one.get exprR1 = [exprR1] := by decide
    simp [choose, chooseGo, selTest, hget, MIN_COST_ALIAS,
      MIN_COST_ALIAS_INV, eqC2, mkEq]

/-- Claim C3: a Group whose required shift along some dimension exceeds its
legal decrement budget (the excess of the maximum distance over the Group's
maximum legal increment is larger than its maximum legal decrement) is dropped
alone — the shift phase keeps exactly the groups with a legal shift mapper,
and a group is dropped iff some dimension's excess is positive and beyond the
budget — and on the concrete scenario the dropped `b` group does not appear in
the returned Aliases while the unrelated `a` group still materializes. -/
theorem claim_C3_unbounded_shift_drop :
    (∀ (halo : String → Dim → Int) (mds : List (Dim × Int))
        (groups : List Group),
        (shiftsPhase halo mds groups).1 =
          groups.filter (fun g => (shiftGroup halo mds g).isSome)) ∧
    (∀ (halo : String → Dim → Int) (mds : List (Dim × Int)) (g : Group),
        shiftGroup halo mds g = none ↔
          ∃ p ∈ groupTEntries g, ShiftExceeds halo mds g p.1) ∧
    (collect haloC3 sEqsC3 = Except.ok aliasesC3 ∧
      aliasesC3.get exprB0 = [] ∧ aliasesC3.get exprB3 = [] ∧
      aliasesC3.get exprA0 = [exprA0, exprA3]) := by
  refine ⟨?_, ?_, by decide⟩
  · intro halo mds groups
    rw [shiftsPhase_eq]
  · intro halo mds g
    exact shiftGroupGo_none_iff halo mds g (groupTEntries g) []

/-- Claim C4: non-identical symbolic offset components are handled
asymmetrically — the MD phase drops exactly the groups with an entry whose
symbolic components prevent an integer distance (non-comparable and
non-identical offsets; same-symbol offsets differing by integers evaluate and
survive) and keeps the rest, while the remaining groups are still processed
(on the concrete scenario the different-symbol `s` group silently vanishes
while the `t` group still materializes), whereas a non-uniform per-dimension
distance in the Basis-Alias distance computation aborts the whole `collect`
call with the `ValueError`-class failure. -/
theorem claim_C4_symbolic_asymmetry :
    (∀ groups : List Group,
        (mdsPhase groups).2 =
          groups.filter (fun g =>
            (groupTEntries g).all
              (fun p => (mdEntryDistance p.2).isSome))) ∧
    (collect haloC4 sEqsC4a = Except.ok aliasesC4a ∧
      aliasesC4a.get exprS1 = [] ∧ aliasesC4a.get exprS2 = [] ∧
      aliasesC4a.get exprT0 = [exprT0, exprT2]) ∧
    collect haloC4 sEqsC4b = Except.error CErr.nonUniformDistance := by
  refine ⟨?_, by decide, by decide⟩
  intro groups
  exact mdsPhaseGo_kept groups []

/-- Claim C5: when `choose` selects no candidates, `cire` returns exactly the
input cluster unchanged; otherwise it returns the materialized-temporary
clusters followed by the single rebuilt original cluster. -/
theorem claim_C5_cire_pipeline :
    ∀ {Cluster Subs : Type} (extractF : Cluster → List SEq)
      (halo : String → Dim → Int) (est : SEq → Nat) (tinv : SExpr → Bool)
      (processF : Cluster → List (SExpr × SExpr) → Aliases →
        List Cluster × Subs)
      (rebuildF : Cluster → List SEq → Aliases → Subs → Cluster)
      (cluster : Cluster) (aliases : Aliases),
      collect halo (extractF cluster) = Except.ok aliases →
      ((choose est tinv (extractF cluster) aliases).1 = [] →
        cire extractF halo est tinv processF rebuildF cluster =
          Except.ok (Sum.inl cluster)) ∧
      ((choose est tinv (extractF cluster) aliases).1 ≠ [] →
        cire extractF halo est tinv processF rebuildF cluster =
          Except.ok (Sum.inr
            ((processF cluster
                (choose est tinv (extractF cluster) aliases).1 aliases).1 ++
              [rebuildF cluster
                (choose est tinv (extractF cluster) aliases).2 aliases
                (processF cluster
                  (choose est tinv (extractF cluster) aliases).1
                  aliases).2]))) := by
  intro Cluster Subs extractF halo est tinv processF rebuildF cluster
    aliases hc
  rcases hch : choose est tinv (extractF cluster) aliases with ⟨cands, others⟩
  constructor
  · intro h0
    simp only [hch] at h0
    subst h0
    simp [cire, hc, hch]
  · intro h1
    simp only [hch] at h1 ⊢
    cases cands with
    | nil => exact absurd rfl h1
    | cons c ct => simp [cire, hc, hch]

/-- Claim C5 witness: the short-circuit branch at a concrete instantiation. -/
theorem claim_C5_witness :
    cire (fun _ : Nat => ([] : List SEq)) (fun _ _ => 0) (fun _ => 0)
      (fun _ => false) (fun _ _ _ => (([] : List Nat), ()))
      (fun c _ _ _ => c) 7 = Except.ok (Sum.inl 7) :=
  (claim_C5_cire_pipeline (fun _ : Nat => ([] : List SEq)) (fun _ _ => 0)
      (fun _ => 0) (fun _ => false) (fun _ _ _ => (([] : List Nat), ()))
      (fun c _ _ _ => c) 7 {} rfl).1 rfl

/-- Claim C10: `Aliases.get` is total and never returns `None`: a key that is
a Basis Alias yields its own aliased list; a key that is one of the aliased
expressions yields the containing aliased list; any other key yields the empty
list. -/
theorem claim_C10_aliases_get_total :
    (∀ (a : Aliases) (k : SExpr)
        (v : List SExpr × List (List (Dim × OffDiff))),
        lookupA a.entries k = some v → a.get k = v.1) ∧
    (∀ (a : Aliases) (k : SExpr),
        lookupA a.entries k = none →
        (∃ ent ∈ a.entries, k ∈ ent.2.1) →
        ∃ ent ∈ a.entries, k ∈ ent.2.1 ∧ a.get k = ent.2.1) ∧
    (∀ (a : Aliases) (k : SExpr),
        lookupA a.entries k = none →
        (∀ ent ∈ a.entries, k ∉ ent.2.1) →
        a.get k = []) := by
  refine ⟨?_, ?_, ?_⟩
  · intro a k v h
    simp [Aliases.get, h]
  · intro a k h hex
    have hsome : (a.entries.find? (fun e => decide (k ∈ e.2.1))).isSome := by
      rw [List.find?_isSome]
      obtain ⟨ent, hment, hkent⟩ := hex
      exact ⟨ent, hment, by simpa using hkent⟩
    obtain ⟨ent, hent⟩ := Option.isSome_iff_exists.mp hsome
    refine ⟨ent, List.mem_of_find?_eq_some hent, ?_, ?_⟩
    · simpa using List.find?_some hent
    · simp [Aliases.get, h, hent]
  · intro a k h habs
    have hnone : a.entries.find? (fun e => decide (k ∈ e.2.1)) = none := by
      rw [List.find?_eq_none]
      intro ent hment
      simp [habs ent hment]
    simp [Aliases.get, h, hnone]

/-- Claim C10 witness: lookup of a Basis-Alias key at a concrete map. -/
theorem claim_C10_witness :
    aliasesC2two.get basisC2 = [exprR1, exprR2] :=
  claim_C10_aliases_get_total.1 aliasesC2two basisC2 ([exprR1, exprR2], [])
    (by decide)

end Devito
